import Mathlib

/-!
Verification development for the screenforge raster core.

The Rust sources are shallowly embedded: `u8`/`u32` values become `Nat`
(with explicit saturation or `% 2^64` where wrapping matters), `i32`
becomes `Int`, and `f32` arithmetic is modelled over `ℚ` with Rust's
`round` (half away from zero), `clamp`, truncating casts and the
sign-of-dividend `%` made explicit.  Fallible code returns `Option` or
`Except`.
-/

namespace Screenforge

/-- An RGBA color: four 8-bit channels, kept as naturals. -/
structure Rgba where
  r : ℕ
  g : ℕ
  b : ℕ
  a : ℕ
deriving DecidableEq

/-- Truncation toward zero, as Rust `as`-casts and `%` use. -/
def qtrunc (x : ℚ) : ℤ := if 0 ≤ x then ⌊x⌋ else ⌈x⌉

/-- Rust `f32::round`: round half away from zero. -/
def roundRust (x : ℚ) : ℤ := if 0 ≤ x then ⌊x + 1/2⌋ else ⌈x - 1/2⌉

/-- Rust `%` on floats: remainder with the sign of the dividend. -/
def rustRem (a b : ℚ) : ℚ := a - b * qtrunc (a / b)

/-- Rust `f32::clamp x lo hi` (for `lo ≤ hi`). -/
def clampQ (x lo hi : ℚ) : ℚ := min (max x lo) hi

/-! ## color.rs -/

/-- `lerp_channel`: interpolate one channel, round, clamp to `[0,255]`, cast to `u8`. -/
def lerp_channel (a b : ℕ) (t : ℚ) : ℕ :=
  (min (max (roundRust ((a : ℚ) + ((b : ℚ) - (a : ℚ)) * t)) 0) 255).toNat

/-- `lerp_color`: `t` clamped to `[0,1]`, each channel interpolated. -/
def lerp_color (a b : Rgba) (t : ℚ) : Rgba :=
  let clamped := clampQ t 0 1
  ⟨lerp_channel a.r b.r clamped,
   lerp_channel a.g b.g clamped,
   lerp_channel a.b b.b clamped,
   lerp_channel a.a b.a clamped⟩

/-- HSL color (`struct Hsl`), over exact rationals. -/
structure Hsl where
  h : ℚ
  s : ℚ
  l : ℚ
deriving DecidableEq

/-- `Hsl::new`: wraps hue with Rust `%` and clamps saturation/lightness. -/
def Hsl.new (h s l : ℚ) : Hsl :=
  ⟨rustRem h 360, clampQ s 0 1, clampQ l 0 1⟩

/-- `Hsl::shift_hue`. -/
def Hsl.shift_hue (c : Hsl) (degrees : ℚ) : Hsl :=
  Hsl.new (rustRem (c.h + degrees + 360) 360) c.s c.l

/-- `Hsl::adjust_saturation`. -/
def Hsl.adjust_saturation (c : Hsl) (factor : ℚ) : Hsl :=
  Hsl.new c.h (clampQ (c.s * factor) 0 1) c.l

/-- `Hsl::with_lightness`. -/
def Hsl.with_lightness (c : Hsl) (l : ℚ) : Hsl :=
  Hsl.new c.h c.s l

/-- `Hsl::with_saturation`. -/
def Hsl.with_saturation (c : Hsl) (s : ℚ) : Hsl :=
  Hsl.new c.h s c.l

/-- Value of one hex digit (accepting both cases), as `char::to_digit(16)` inside
`from_str_radix`. -/
def hexVal (c : Char) : Option ℕ :=
  if '0' ≤ c ∧ c ≤ '9' then some (c.toNat - 48)
  else if 'a' ≤ c ∧ c ≤ 'f' then some (c.toNat - 87)
  else if 'A' ≤ c ∧ c ≤ 'F' then some (c.toNat - 55)
  else none

/-- One uppercase hex digit, as `format!("{:02X}")` emits. -/
def hexDigit (d : ℕ) : Char :=
  if d < 10 then Char.ofNat (48 + d) else Char.ofNat (55 + d)

/-- Two-digit uppercase hex rendering of a byte. -/
def hexByte (n : ℕ) : List Char := [hexDigit (n / 16), hexDigit (n % 16)]

/-- `rgba_to_hex`: uppercase `#RRGGBB`, alpha dropped. -/
def rgba_to_hex (c : Rgba) : List Char :=
  '#' :: (hexByte c.r ++ hexByte c.g ++ hexByte c.b)

/-- Whitespace test used by `str::trim` / `split_whitespace`. -/
def wsChar (c : Char) : Bool := c.isWhitespace

/-- `str::trim`: drop whitespace from both ends. -/
def trimChars (s : List Char) : List Char :=
  ((s.dropWhile wsChar).reverse.dropWhile wsChar).reverse

/-- Digit-folding loop of `from_str_radix(_, 16)`. -/
def hexFoldAux (acc : ℕ) : List Char → Option ℕ
  | [] => some acc
  | c :: rest =>
    match hexVal c with
    | none => none
    | some d => hexFoldAux (16 * acc + d) rest

/-- The optional single leading `+` accepted by `from_str_radix`. -/
def stripPlus (s : List Char) : List Char :=
  if s.head? = some '+' then s.tail else s

/-- Digit run of `from_str_radix(_, 16)`: at least one digit, all hex, value
within `u8` range. -/
def fromStrRadix16Core : List Char → Option ℕ
  | [] => none
  | l =>
    match hexFoldAux 0 l with
    | none => none
    | some v => if v ≤ 255 then some v else none

/-- `u8::from_str_radix(s, 16)`. -/
def fromStrRadix16 (s : List Char) : Option ℕ :=
  fromStrRadix16Core (stripPlus s)

/-- `strip_prefix('#').unwrap_or(value)`. -/
def stripHash (value : List Char) : List Char :=
  if value.head? = some '#' then value.tail else value

/-- Length dispatch of `parse_hex_rgba`: parse `RRGGBB` or `RRGGBBAA`; any
other length or a non-hex digit fails. -/
def parseHexCore (hex : List Char) : Option Rgba :=
  match hex with
  | [r1, r2, g1, g2, b1, b2] =>
    match fromStrRadix16 [r1, r2], fromStrRadix16 [g1, g2], fromStrRadix16 [b1, b2] with
    | some r, some g, some b => some ⟨r, g, b, 255⟩
    | _, _, _ => none
  | [r1, r2, g1, g2, b1, b2, a1, a2] =>
    match fromStrRadix16 [r1, r2], fromStrRadix16 [g1, g2],
          fromStrRadix16 [b1, b2], fromStrRadix16 [a1, a2] with
    | some r, some g, some b, some a => some ⟨r, g, b, a⟩
    | _, _, _, _ => none
  | _ => none

/-- `parse_hex_rgba`: trim, strip one leading `#`, then length dispatch. -/
def parse_hex_rgba (input : List Char) : Option Rgba :=
  parseHexCore (stripHash (trimChars input))

/-! ## devices.rs -/

/-- Four-sided screen insets (`struct Insets`). -/
structure Insets where
  top : ℕ
  right : ℕ
  bottom : ℕ
  left : ℕ
deriving DecidableEq

inductive PhoneModel where
  | iphone16Pro
  | iphone16ProMax
  | iphone17Pro
  | iphone17ProMax
deriving DecidableEq

/-- Decorative-cutout geometry (`struct DynamicIslandSpec`), fractions of the
screen area. -/
structure IslandSpec where
  width_frac : ℚ
  height_frac : ℚ
  y_offset_frac : ℚ
  lens_size_frac : ℚ
deriving DecidableEq

def DEFAULT_CORNER_RADIUS : ℕ := 88
def DEFAULT_INSETS : Insets := ⟨28, 20, 28, 20⟩
def DEFAULT_FRAME_COLOR : List Char := "#11151B".toList
def DEFAULT_FRAME_BORDER_WIDTH : ℕ := 8
def DEFAULT_SHADOW_OFFSET_Y : ℤ := 18
def DEFAULT_SHADOW_ALPHA : ℕ := 74

/-- Raw phone configuration (`struct PhoneConfig`), the fields used by frame
resolution and composition geometry. -/
structure PhoneConfig where
  model : Option PhoneModel
  x : ℕ
  y : ℕ
  width : ℕ
  height : ℕ
  corner_radius : ℕ
  screen_padding : Insets
  frame_color : List Char
  frame_border_width : ℕ
  shadow_offset_y : ℤ
  shadow_alpha : ℕ
deriving DecidableEq

/-- `struct ResolvedPhoneStyle`. -/
structure ResolvedPhoneStyle where
  corner_radius : ℕ
  screen_padding : Insets
  frame_color : List Char
  frame_border_width : ℕ
  shadow_offset_y : ℤ
  shadow_alpha : ℕ
  island : Option IslandSpec
deriving DecidableEq

/-- `struct DeviceProfile`. -/
structure DeviceProfile where
  corner_radius : ℕ
  screen_padding : Insets
  frame_color : List Char
  frame_border_width : ℕ
  shadow_offset_y : ℤ
  shadow_alpha : ℕ
  island : Option IslandSpec
deriving DecidableEq

/-- The fixed device-profile table (`profile_for`). -/
def profile_for (model : PhoneModel) : DeviceProfile :=
  match model with
  | .iphone16Pro =>
    ⟨116, ⟨54, 28, 40, 28⟩, "#7A7F89".toList, 13, 24, 82,
     some ⟨33/100, 50/1000, 20/1000, 38/100⟩⟩
  | .iphone16ProMax =>
    ⟨126, ⟨54, 30, 42, 30⟩, "#767C86".toList, 14, 25, 83,
     some ⟨30/100, 47/1000, 20/1000, 37/100⟩⟩
  | .iphone17Pro =>
    ⟨122, ⟨56, 28, 40, 28⟩, "#686F78".toList, 14, 25, 84,
     some ⟨31/100, 46/1000, 20/1000, 36/100⟩⟩
  | .iphone17ProMax =>
    ⟨130, ⟨56, 30, 42, 30⟩, "#666D76".toList, 15, 26, 85,
     some ⟨29/100, 44/1000, 20/1000, 35/100⟩⟩

/-- `choose_u32`: default-sentinel override for `u32` fields. -/
def choose_u32 (input default_value device_value : ℕ) : ℕ :=
  if input = default_value then device_value else input

/-- `choose_i32`. -/
def choose_i32 (input default_value device_value : ℤ) : ℤ :=
  if input = default_value then device_value else input

/-- `choose_u8`. -/
def choose_u8 (input default_value device_value : ℕ) : ℕ :=
  if input = default_value then device_value else input

/-- `choose_insets`: per-side default-sentinel override. -/
def choose_insets (input default_value device_value : Insets) : Insets :=
  ⟨choose_u32 input.top default_value.top device_value.top,
   choose_u32 input.right default_value.right device_value.right,
   choose_u32 input.bottom default_value.bottom device_value.bottom,
   choose_u32 input.left default_value.left device_value.left⟩

/-- ASCII lowercase of one character (`u8::to_ascii_lowercase`). -/
def asciiLower (c : Char) : Char :=
  if 'A' ≤ c ∧ c ≤ 'Z' then Char.ofNat (c.toNat + 32) else c

/-- `str::eq_ignore_ascii_case`. -/
def eqIgnoreAsciiCase (a b : List Char) : Bool :=
  a.map asciiLower = b.map asciiLower

/-- `choose_color`: default-sentinel override, ASCII case-insensitive. -/
def choose_color (input default_value device_value : List Char) : List Char :=
  if eqIgnoreAsciiCase input default_value then device_value else input

/-- `resolve_phone_style`: overlay a device profile on top of the raw values,
field by field, replacing a raw value exactly when it equals the global default
for that field. -/
def resolve_phone_style (phone : PhoneConfig) : ResolvedPhoneStyle :=
  match phone.model with
  | none =>
    ⟨phone.corner_radius, phone.screen_padding, phone.frame_color,
     phone.frame_border_width, phone.shadow_offset_y, phone.shadow_alpha, none⟩
  | some model =>
    let profile := profile_for model
    ⟨choose_u32 phone.corner_radius DEFAULT_CORNER_RADIUS profile.corner_radius,
     choose_insets phone.screen_padding DEFAULT_INSETS profile.screen_padding,
     choose_color phone.frame_color DEFAULT_FRAME_COLOR profile.frame_color,
     choose_u32 phone.frame_border_width DEFAULT_FRAME_BORDER_WIDTH profile.frame_border_width,
     choose_i32 phone.shadow_offset_y DEFAULT_SHADOW_OFFSET_Y profile.shadow_offset_y,
     choose_u8 phone.shadow_alpha DEFAULT_SHADOW_ALPHA profile.shadow_alpha,
     profile.island⟩

/-! ## background.rs -/

/-- One 64-bit wrap. -/
def wrap64 (n : ℕ) : ℕ := n % 2 ^ 64

/-- `pseudo_noise`: seeded integer-hash scalar field; exact 64-bit arithmetic,
final value in `[-1, 1]` over `ℚ`. -/
def pseudo_noise (seed x y : ℕ) : ℚ :=
  let v0 := (wrap64 seed) ^^^ wrap64 (x * 0x9E3779B97F4A7C15) ^^^ wrap64 (y * 0xC2B2AE3D27D4EB4F)
  let v1 := v0 ^^^ (v0 >>> 30)
  let v2 := wrap64 (v1 * 0xBF58476D1CE4E5B9)
  let v3 := v2 ^^^ (v2 >>> 27)
  let v4 := wrap64 (v3 * 0x94D049BB133111EB)
  let v5 := v4 ^^^ (v4 >>> 31)
  let n : ℚ := ((v5 &&& 1023 : ℕ) : ℚ) / 1023
  (n - 1/2) * 2

/-- SplitMix64-style avalanche, used to realize the modelled RNG stream. -/
def mix64 (v0 : ℕ) : ℕ :=
  let v1 := wrap64 ((v0 ^^^ (v0 >>> 30)) * 0xBF58476D1CE4E5B9)
  let v2 := wrap64 ((v1 ^^^ (v1 >>> 27)) * 0x94D049BB133111EB)
  v2 ^^^ (v2 >>> 31)

/-- Modelled from the spec: `ChaCha8Rng::seed_from_u64` and its `gen_range`
draws come from the rand crates, which are outside this repository.  Per the
spec the RNG is a seeded, deterministic source used for uniform index/range
selection; we model it as a pure stream of 64-bit draws derived from the seed. -/
def seedStream (seed : ℕ) (i : ℕ) : ℕ :=
  mix64 (wrap64 (wrap64 seed + (i + 1) * 0x9E3779B97F4A7C15))

/-- Modelled from the spec: `rng.gen_range(lo..hi)` (uniform selection from a
half-open range), realized as `lo + draw % (hi - lo)`. -/
def gen_range (lo hi raw : ℕ) : ℕ := lo + raw % (hi - lo)

/-- Rust `f32 as u8` after a `clamp(0.0, 255.0)`: floor of the clamped value. -/
def clampToByte (q : ℚ) : ℕ := (⌊clampQ q 0 255⌋).toNat

/-- One pixel of the mesh template (`render_mesh` inner loop body). -/
def mesh_pixel (c0 c1 c2 c3 : Rgba) (seed width height x y : ℕ) : Rgba :=
  let width_f : ℚ := ((max width 1 - 1 : ℕ) : ℚ)
  let height_f : ℚ := ((max height 1 - 1 : ℕ) : ℚ)
  let fy : ℚ := (y : ℚ) / max height_f 1
  let fx : ℚ := (x : ℚ) / max width_f 1
  let top := lerp_color c0 c1 fx
  let bottom := lerp_color c2 c3 fx
  let mixed := lerp_color top bottom fy
  let dx := |fx - 1/2| * 2
  let dy := |fy - 1/2| * 2
  let vignette := clampQ ((dx + dy) * (12/100)) 0 (16/100)
  let grain := pseudo_noise seed x y * 10
  ⟨clampToByte ((mixed.r : ℚ) * (1 - vignette) + grain),
   clampToByte ((mixed.g : ℚ) * (1 - vignette) + grain),
   clampToByte ((mixed.b : ℚ) * (1 - vignette) + grain),
   mixed.a⟩

/-- `render_mesh`: bilinear blend of four RNG-chosen corner colors, with
vignette and grain; the alpha channel of each pixel is never touched by the
per-channel loop (channels 0..2 only). -/
def render_mesh (width height : ℕ) (palette : List Rgba) (draw : ℕ → ℕ) (seed : ℕ) :
    List (List Rgba) :=
  let len := palette.length
  let c0 := palette.getD (gen_range 0 len (draw 0)) ⟨0, 0, 0, 0⟩
  let c1 := palette.getD (gen_range 0 len (draw 1)) ⟨0, 0, 0, 0⟩
  let c2 := palette.getD (gen_range 0 len (draw 2)) ⟨0, 0, 0, 0⟩
  let c3 := palette.getD (gen_range 0 len (draw 3)) ⟨0, 0, 0, 0⟩
  (List.range height).map fun y =>
    (List.range width).map fun x => mesh_pixel c0 c1 c2 c3 seed width height x y

/-- One pixel of the stripes template (`render_stripes` inner loop body). -/
def stripes_pixel (c0 c1 c2 : Rgba) (stripe_size drift seed : ℕ) (_width : ℕ)
    (height x y : ℕ) : Rgba :=
  let height_f : ℚ := ((max height 1 - 1 : ℕ) : ℚ)
  let fy : ℚ := (y : ℚ) / max height_f 1
  let row_tint := lerp_color c2 c0 fy
  let line := ((x + y + drift) / stripe_size) % 2
  let base := if line = 0 then c0 else c1
  let mixed := lerp_color base row_tint (22/100)
  let grain := pseudo_noise (wrap64 (seed * 13)) x y * 8
  ⟨clampToByte ((mixed.r : ℚ) + grain),
   clampToByte ((mixed.g : ℚ) + grain),
   clampToByte ((mixed.b : ℚ) + grain),
   mixed.a⟩

/-- `render_stripes`: diagonal stripes from two RNG-chosen colors, row-tinted
toward a third, plus grain; alpha untouched by the channel loop. -/
def render_stripes (width height : ℕ) (palette : List Rgba) (draw : ℕ → ℕ) (seed : ℕ) :
    List (List Rgba) :=
  let len := palette.length
  let c0 := palette.getD (gen_range 0 len (draw 0)) ⟨0, 0, 0, 0⟩
  let c1 := palette.getD (gen_range 0 len (draw 1)) ⟨0, 0, 0, 0⟩
  let c2 := palette.getD (gen_range 0 len (draw 2)) ⟨0, 0, 0, 0⟩
  let stripe_size := gen_range 28 92 (draw 3)
  let drift := gen_range 18 72 (draw 4)
  (List.range height).map fun y =>
    (List.range width).map fun x =>
      stripes_pixel c0 c1 c2 stripe_size drift seed width height x y

inductive BackgroundTemplate where
  | mesh
  | stripes
deriving DecidableEq

inductive AutoColorStrategy where
  | monochromatic
  | analogous
  | complementary
  | triadic
deriving DecidableEq

/-- `struct BackgroundConfig` (all fields, as deserialized). -/
structure BackgroundConfig where
  template : BackgroundTemplate
  seed : ℕ
  colors : List (List Char)
  auto_colors : Bool
  auto_strategy : AutoColorStrategy
deriving DecidableEq

inductive RenderErr where
  | invalidCanvasSize
  | invalidColor
  | insufficientPalette
deriving DecidableEq

/-- Parse every palette entry in order, failing on the first bad one
(the `collect::<Result<Vec<_>>>` step of `render_background`). -/
def parsePalette : List (List Char) → Option (List Rgba)
  | [] => some []
  | s :: rest =>
    match parse_hex_rgba s with
    | none => none
    | some c =>
      match parsePalette rest with
      | none => none
      | some cs => some (c :: cs)

/-- `render_background`: validate size and palette, seed the RNG from
`cfg.seed`, and dispatch on the template. -/
def render_background (cfg : BackgroundConfig) (width height : ℕ) :
    Except RenderErr (List (List Rgba)) :=
  if width = 0 ∨ height = 0 then .error .invalidCanvasSize
  else
    match parsePalette cfg.colors with
    | none => .error .invalidColor
    | some palette =>
      if palette.length < 2 then .error .insufficientPalette
      else
        .ok (match cfg.template with
          | .mesh => render_mesh width height palette (seedStream cfg.seed) cfg.seed
          | .stripes => render_stripes width height palette (seedStream cfg.seed) cfg.seed)

/-! ## compose.rs: canvas and pixel blending -/

/-- A row-major RGBA canvas (`image::RgbaImage`). -/
structure Canvas where
  width : ℕ
  height : ℕ
  data : List Rgba
deriving DecidableEq

/-- `get_pixel` on the row-major buffer. -/
def get_pixel (c : Canvas) (x y : ℕ) : Rgba := c.data.getD (y * c.width + x) ⟨0, 0, 0, 0⟩

/-- `put_pixel` on the row-major buffer. -/
def put_pixel (c : Canvas) (x y : ℕ) (v : Rgba) : Canvas :=
  ⟨c.width, c.height, c.data.set (y * c.width + x) v⟩

/-- One channel of the source-over blend: `src * alpha + dst * (1 - alpha)`,
rounded, clamped to `[0,255]`, cast to `u8`. -/
def blend_channel (s d : ℕ) (alpha : ℚ) : ℕ :=
  (min (max (roundRust ((s : ℚ) * alpha + (d : ℚ) * (1 - alpha))) 0) 255).toNat

/-- `blend_pixel`: silently ignore out-of-bounds coordinates; otherwise
source-over blend with `src.a/255`, forcing the written alpha to 255. -/
def blend_pixel (c : Canvas) (x y : ℤ) (src : Rgba) : Canvas :=
  if x < 0 ∨ y < 0 then c
  else
    let xn := x.toNat
    let yn := y.toNat
    if c.width ≤ xn ∨ c.height ≤ yn then c
    else
      let dst := get_pixel c xn yn
      let alpha : ℚ := (src.a : ℚ) / 255
      put_pixel c xn yn
        ⟨blend_channel src.r dst.r alpha,
         blend_channel src.g dst.g alpha,
         blend_channel src.b dst.b alpha,
         255⟩

/-! ## compose.rs: text measurement and wrapping

The glyph advance and kerning values come from the embedded Geist font
binaries (`assets/fonts/*.ttf`), which are not part of the sources under
`src/`.  Modelled from the spec: text is measured as "single-glyph advance
plus pairwise kerning", so the metrics are arbitrary per-character advance
and per-pair kerning functions over `ℚ`. -/

/-- `measure_text_width` with an explicit previous glyph: sum of advances plus
kerning between consecutive characters. -/
def measureFrom (adv : Char → ℚ) (kern : Char → Char → ℚ) : Option Char → List Char → ℚ
  | _, [] => 0
  | prev, c :: rest =>
    (match prev with
     | none => 0
     | some p => kern p c) + adv c + measureFrom adv kern (some c) rest

/-- `measure_text_width`. -/
def measure_text_width (adv : Char → ℚ) (kern : Char → Char → ℚ) (s : List Char) : ℚ :=
  measureFrom adv kern none s

/-- `str::split_whitespace` accumulator loop: split on whitespace, dropping
empty chunks. -/
def splitWsAux : List Char → List Char → List (List Char)
  | [], acc => if acc = [] then [] else [acc.reverse]
  | c :: rest, acc =>
    if wsChar c then
      if acc = [] then splitWsAux rest []
      else acc.reverse :: splitWsAux rest []
    else splitWsAux rest (c :: acc)

/-- `str::split_whitespace`. -/
def splitWs (s : List Char) : List (List Char) := splitWsAux s []

/-- Split on `'\n'` keeping empty pieces. -/
def splitNlAux : List Char → List Char → List (List Char)
  | [], acc => [acc.reverse]
  | c :: rest, acc =>
    if c = '\n' then acc.reverse :: splitNlAux rest []
    else splitNlAux rest (c :: acc)

/-- Strip one trailing `'\r'` (the `str::lines` CRLF rule). -/
def stripCr (l : List Char) : List Char :=
  if l.getLast? = some '\r' then l.dropLast else l

/-- `str::lines`: split on `'\n'`, no trailing empty line, `'\r'`-stripped. -/
def rustLines (s : List Char) : List (List Char) :=
  if s = [] then []
  else
    let pieces := splitNlAux s []
    let pieces := if s.getLast? = some '\n' then pieces.dropLast else pieces
    pieces.map stripCr

/-- The greedy word-accumulation loop of `wrap_text_by_width` for one hard
line: `current`/`current_width` accumulate words, flushing when the next word
would overflow `max_width`. -/
def wrapWords (adv : Char → ℚ) (kern : Char → Char → ℚ) (maxW : ℚ) :
    List (List Char) → List Char → ℚ → List (List Char) → List (List Char)
  | [], current, _, out => if current = [] then out else out ++ [current]
  | w :: rest, current, currentWidth, out =>
    if currentWidth + (if current = [] then 0 else measure_text_width adv kern [' ']) +
        measure_text_width adv kern w ≤ maxW then
      wrapWords adv kern maxW rest
        (if current = [] then w else current ++ ' ' :: w)
        (currentWidth + (if current = [] then 0 else measure_text_width adv kern [' ']) +
          measure_text_width adv kern w)
        out
    else
      wrapWords adv kern maxW rest w (measure_text_width adv kern w)
        (if current = [] then out else out ++ [current])

/-- The accumulation over hard lines of `wrap_text_by_width`: a hard line that
fits is kept whole, otherwise its words are wrapped greedily. -/
def wrapAll (adv : Char → ℚ) (kern : Char → Char → ℚ) (maxW : ℚ)
    (hard_lines : List (List Char)) : List (List Char) :=
  hard_lines.foldl
    (fun acc hard_line =>
      if measure_text_width adv kern hard_line ≤ maxW then acc ++ [hard_line]
      else acc ++ wrapWords adv kern maxW (splitWs hard_line) [] 0 [])
    []

/-- `wrap_text_by_width`: keep each explicit line whole when it fits, else
greedily wrap its whitespace-delimited words; empty output becomes one empty
line. -/
def wrap_text_by_width (adv : Char → ℚ) (kern : Char → Char → ℚ) (text : List Char)
    (maxW : ℚ) : List (List Char) :=
  if wrapAll adv kern maxW (rustLines text) = [] then [[]]
  else wrapAll adv kern maxW (rustLines text)

/-! ## compose.rs: cover-fit resize -/

/-- A decoded bitmap with abstract pixel contents. -/
structure Img where
  width : ℕ
  height : ℕ
  pix : ℕ → ℕ → Rgba

/-- Modelled from the image crate's documented contract: `crop_imm(x, y, w, h)`
clamps the crop rectangle to the image bounds. -/
def crop_imm (img : Img) (x y w h : ℕ) : Img :=
  let x' := min x img.width
  let y' := min y img.height
  ⟨min w (img.width - x'), min h (img.height - y'),
   fun px py => img.pix (x' + px) (y' + py)⟩

/-- `resize_cover`: scale by the larger of the two target/source ratios, resize
to at least the target in both dimensions, then center-crop to the target.
The resampling filter itself (`resize_exact` with Lanczos3) is library code;
it is passed in as `resampleExact`, constrained in the theorems only by its
documented contract of returning exactly the requested dimensions. -/
def cover_scale (source : Img) (target_w target_h : ℕ) : ℚ :=
  max ((target_w : ℚ) / (source.width : ℚ)) ((target_h : ℚ) / (source.height : ℚ))

/-- `(src_w as f32 * scale).ceil() as u32`, then `.max(target_w)`. -/
def cover_resized_w (source : Img) (target_w target_h : ℕ) : ℕ :=
  (Int.toNat ⌈(source.width : ℚ) * cover_scale source target_w target_h⌉).max target_w

def cover_resized_h (source : Img) (target_w target_h : ℕ) : ℕ :=
  (Int.toNat ⌈(source.height : ℚ) * cover_scale source target_w target_h⌉).max target_h

def resize_cover (resampleExact : Img → ℕ → ℕ → Img) (source : Img)
    (target_w target_h : ℕ) : Img :=
  crop_imm
    (resampleExact source (cover_resized_w source target_w target_h)
      (cover_resized_h source target_w target_h))
    ((cover_resized_w source target_w target_h - target_w) / 2)
    ((cover_resized_h source target_w target_h - target_h) / 2)
    target_w target_h

/-! ## compose.rs: scene screen geometry -/

inductive ComposeErr where
  | invalidPhoneSize
  | invalidFrameColor
  | noScreenSpace
deriving DecidableEq

/-- The screen sub-rectangle computed by `compose_scene`. -/
structure ScreenRect where
  x : ℕ
  y : ℕ
  w : ℕ
  h : ℕ
deriving DecidableEq

def u32Max : ℕ := 2 ^ 32 - 1

/-- `u32::saturating_add`. -/
def satAdd (a b : ℕ) : ℕ := min (a + b) u32Max

/-- The overlay-specific inset adjustment `(top, side)` of `compose_scene`:
nonzero only when an overlay is used with a Pro Max model. -/
def overlayInsetAdjust (overlayPresent : Bool) (model : Option PhoneModel) : ℕ × ℕ :=
  if overlayPresent then
    match model with
    | some PhoneModel.iphone16ProMax => (12, 6)
    | some PhoneModel.iphone17ProMax => (10, 5)
    | _ => (0, 0)
  else (0, 0)

/-- The four effective screen insets of `compose_scene`:
`screen_padding side + frame_border_width` (saturating), minus the overlay
adjustment (saturating). -/
def effectiveInsets (phone : PhoneConfig) (overlayPresent : Bool) : Insets :=
  let style := resolve_phone_style phone
  let adj := overlayInsetAdjust overlayPresent phone.model
  ⟨satAdd style.screen_padding.top style.frame_border_width - adj.1,
   satAdd style.screen_padding.right style.frame_border_width - adj.2,
   satAdd style.screen_padding.bottom style.frame_border_width,
   satAdd style.screen_padding.left style.frame_border_width - adj.2⟩

/-- The geometry-and-validation prefix of `compose_scene`: phone-size check,
frame-color parse (only on the programmatic-frame path, i.e. no overlay),
effective insets, and the `NoScreenSpace` check; on success, the screen
sub-rectangle the screenshot is fitted into.  The overlay's presence is the
result of the filesystem probe `resolve_overlay_for_compose`, passed in as a
boolean. -/
def compose_scene_geometry (phone : PhoneConfig) (overlayPresent : Bool) :
    Except ComposeErr ScreenRect :=
  if phone.width = 0 ∨ phone.height = 0 then .error .invalidPhoneSize
  else
    let style := resolve_phone_style phone
    if overlayPresent = false ∧ (parse_hex_rgba style.frame_color).isNone then
      .error .invalidFrameColor
    else
      let ei := effectiveInsets phone overlayPresent
      let screen_w := phone.width - satAdd ei.left ei.right
      let screen_h := phone.height - satAdd ei.top ei.bottom
      if screen_w = 0 ∨ screen_h = 0 then .error .noScreenSpace
      else .ok ⟨satAdd phone.x ei.left, satAdd phone.y ei.top, screen_w, screen_h⟩

/-! ## Instances and example inputs -/

instance {ε α : Type} [DecidableEq ε] [DecidableEq α] : DecidableEq (Except ε α) := fun a b =>
  match a, b with
  | .ok x, .ok y =>
    if h : x = y then isTrue (by rw [h])
    else isFalse (fun hc => h (by injection hc))
  | .error x, .error y =>
    if h : x = y then isTrue (by rw [h])
    else isFalse (fun hc => h (by injection hc))
  | .ok _, .error _ => isFalse (fun hc => Except.noConfusion hc)
  | .error _, .ok _ => isFalse (fun hc => Except.noConfusion hc)

/-- Unwrap an `Except` with a fallback. -/
def okOr {ε α : Type} (e : Except ε α) (d : α) : α :=
  match e with
  | .ok v => v
  | .error _ => d

/-- All-same-color palette carrying alpha 0 (an `#RRGGBBAA` color). -/
def cfgAlphaZero : BackgroundConfig :=
  ⟨.mesh, 0, ["#00000000".toList, "#00000000".toList], false, .monochromatic⟩

/-- A two-color all-black opaque palette. -/
def cfgOpaque : BackgroundConfig :=
  ⟨.mesh, 0, ["#000000".toList, "#000000".toList], false, .monochromatic⟩

/-- Same rendering inputs as `cfgOpaque` but different non-rendering fields. -/
def cfgOpaque' : BackgroundConfig :=
  ⟨.mesh, 0, ["#000000".toList, "#000000".toList], true, .triadic⟩

/-- Constant-advance metric for wrapping examples. -/
def advTen (_ : Char) : ℚ := 10

/-- A kerning table with positive kerning after a space. -/
def kernAfterSpace (a _ : Char) : ℚ := if a = ' ' then 50 else 0

/-- Unit-advance metric. -/
def advOne (_ : Char) : ℚ := 1

/-- The all-zero kerning table. -/
def kernZero (_ _ : Char) : ℚ := 0

/-- A phone whose frame color is the global default in a different letter case. -/
def phoneLowerColor : PhoneConfig :=
  ⟨some .iphone16Pro, 0, 0, 100, 200, 88, ⟨28, 20, 28, 20⟩,
   "#11151b".toList, 8, 18, 74⟩

/-- A phone with every overridable field away from its default. -/
def phoneExplicit : PhoneConfig :=
  ⟨some .iphone17Pro, 0, 0, 100, 200, 40, ⟨1, 2, 3, 4⟩,
   "#123456".toList, 9, 5, 30⟩

/-- A phone whose left and right insets together consume the whole frame width,
used with an overlay on a Pro Max model. -/
def phoneTightInsets : PhoneConfig :=
  ⟨some .iphone16ProMax, 0, 0, 42, 1000, 100, ⟨29, 21, 29, 21⟩,
   "#222222".toList, 0, 0, 10⟩

/-- A model-less phone with feasible insets. -/
def phonePlain : PhoneConfig :=
  ⟨none, 0, 0, 100, 200, 10, ⟨1, 2, 3, 4⟩, "#112233".toList, 5, 0, 0⟩

/-- A 1×1 canvas holding one opaque pixel. -/
def canvasOne : Canvas := ⟨1, 1, [⟨10, 20, 30, 255⟩]⟩

/-- A resampler satisfying the `resize_exact` dimension contract. -/
def resampleId (img : Img) (w h : ℕ) : Img := ⟨w, h, img.pix⟩

/-- A 3×5 black source bitmap. -/
def imgSmall : Img := ⟨3, 5, fun _ _ => ⟨0, 0, 0, 255⟩⟩

/-! ## Theorems -/

theorem clampQ01_bounds (x : ℚ) : 0 ≤ clampQ x 0 1 ∧ clampQ x 0 1 ≤ 1 :=
  ⟨le_min (le_max_right x 0) zero_le_one, min_le_right _ 1⟩

theorem rustRem_nonneg (a b : ℚ) (hb : 0 < b) (ha : 0 ≤ a) :
    0 ≤ rustRem a b ∧ rustRem a b < b := by
  have hbne : b ≠ 0 := ne_of_gt hb
  have hq : 0 ≤ a / b := div_nonneg ha (le_of_lt hb)
  have hfl : ((⌊a / b⌋ : ℤ) : ℚ) ≤ a / b := Int.floor_le _
  have hfu : a / b < (⌊a / b⌋ : ℤ) + 1 := Int.lt_floor_add_one _
  have hab : a / b * b = a := div_mul_cancel₀ a hbne
  unfold rustRem qtrunc
  rw [if_pos hq]
  constructor
  · nlinarith
  · nlinarith

theorem rustRem_nonpos (a b : ℚ) (hb : 0 < b) (ha : a < 0) :
    -b < rustRem a b ∧ rustRem a b ≤ 0 := by
  have hbne : b ≠ 0 := ne_of_gt hb
  have hq : ¬ 0 ≤ a / b := by
    rw [not_le]
    exact div_neg_of_neg_of_pos ha hb
  have hcl : a / b ≤ ((⌈a / b⌉ : ℤ) : ℚ) := Int.le_ceil _
  have hcu : ((⌈a / b⌉ : ℤ) : ℚ) < a / b + 1 := Int.ceil_lt_add_one _
  have hab : a / b * b = a := div_mul_cancel₀ a hbne
  unfold rustRem qtrunc
  rw [if_neg hq]
  constructor
  · nlinarith
  · nlinarith

theorem rustRem_bounds (a b : ℚ) (hb : 0 < b) : -b < rustRem a b ∧ rustRem a b < b := by
  rcases le_or_lt 0 a with ha | ha
  · obtain ⟨h1, h2⟩ := rustRem_nonneg a b hb ha
    exact ⟨lt_of_lt_of_le (neg_neg_of_pos hb) h1, h2⟩
  · obtain ⟨h1, h2⟩ := rustRem_nonpos a b hb ha
    exact ⟨h1, lt_of_le_of_lt h2 hb⟩

theorem rustRem_id_of_abs_lt (a b : ℚ) (hb : 0 < b) (h1 : -b < a) (h2 : a < b) :
    rustRem a b = a := by
  have hbne : b ≠ 0 := ne_of_gt hb
  rcases le_or_lt 0 a with ha | ha
  · have hq : 0 ≤ a / b := div_nonneg ha (le_of_lt hb)
    have hz : ⌊a / b⌋ = 0 := by
      rw [Int.floor_eq_zero_iff]
      exact ⟨hq, (div_lt_one hb).mpr h2⟩
    unfold rustRem qtrunc
    rw [if_pos hq, hz]
    push_cast
    ring
  · have hq : ¬ 0 ≤ a / b := by
      rw [not_le]
      exact div_neg_of_neg_of_pos ha hb
    have hz : ⌈a / b⌉ = 0 := by
      rw [Int.ceil_eq_zero_iff]
      constructor
      · show (-1 : ℚ) < a / b
        rw [lt_div_iff₀ hb]
        nlinarith
      · exact le_of_lt (div_neg_of_neg_of_pos ha hb)
    unfold rustRem qtrunc
    rw [if_neg hq, hz]
    push_cast
    ring

/-- Claim C3 counterexample: Rust `%` keeps the sign of the dividend, so the
normalizing factory applied to a negative hue yields a hue outside `[0, 360)`. -/
theorem hsl_new_negative_hue_cex :
    (Hsl.new (-10) (1/2) (1/2)).h = -10 ∧ ¬ 0 ≤ (Hsl.new (-10) (1/2) (1/2)).h := by
  have hval : (Hsl.new (-10 : ℚ) (1/2) (1/2)).h = -10 := by
    show rustRem (-10) 360 = -10
    exact rustRem_id_of_abs_lt (-10) 360 (by norm_num) (by norm_num) (by norm_num)
  refine ⟨hval, ?_⟩
  rw [hval]
  norm_num

/-- Claim C3 (amended): the normalizing factory always clamps saturation and
lightness to `[0,1]`; the wrapped hue always lies in `(-360, 360)`, and lies in
`[0, 360)` whenever the input hue is nonnegative (hence for `shift_hue` with a
shift of at least `-360°` from a normalized nonnegative hue, and `adjust_saturation`,
`with_lightness`, `with_saturation` preserve the hue).  For a negative input
hue the result is negative, so `[0,360)` does not hold in general. -/
theorem hsl_factory_ranges (h s l d f : ℚ) :
    (0 ≤ (Hsl.new h s l).s ∧ (Hsl.new h s l).s ≤ 1 ∧
     0 ≤ (Hsl.new h s l).l ∧ (Hsl.new h s l).l ≤ 1) ∧
    (-360 < (Hsl.new h s l).h ∧ (Hsl.new h s l).h < 360) ∧
    (0 ≤ h → 0 ≤ (Hsl.new h s l).h) ∧
    (0 ≤ h → -360 ≤ d →
      0 ≤ ((Hsl.new h s l).shift_hue d).h ∧ ((Hsl.new h s l).shift_hue d).h < 360) ∧
    ((Hsl.new h s l).adjust_saturation f).h = (Hsl.new h s l).h ∧
    (0 ≤ ((Hsl.new h s l).adjust_saturation f).s ∧
      ((Hsl.new h s l).adjust_saturation f).s ≤ 1) ∧
    ((Hsl.new h s l).with_lightness f).h = (Hsl.new h s l).h ∧
    (0 ≤ ((Hsl.new h s l).with_lightness f).l ∧ ((Hsl.new h s l).with_lightness f).l ≤ 1) ∧
    ((Hsl.new h s l).with_saturation f).h = (Hsl.new h s l).h ∧
    (0 ≤ ((Hsl.new h s l).with_saturation f).s ∧ ((Hsl.new h s l).with_saturation f).s ≤ 1) := by
  have h360 : (0 : ℚ) < 360 := by norm_num
  have hbounds := rustRem_bounds h 360 h360
  have hid : rustRem (rustRem h 360) 360 = rustRem h 360 :=
    rustRem_id_of_abs_lt _ 360 h360 hbounds.1 hbounds.2
  refine ⟨⟨(clampQ01_bounds s).1, (clampQ01_bounds s).2,
           (clampQ01_bounds l).1, (clampQ01_bounds l).2⟩,
         ⟨hbounds.1, hbounds.2⟩, ?_, ?_, ?_, ?_, ?_, ?_, ?_, ?_⟩
  · intro hh
    exact (rustRem_nonneg h 360 h360 hh).1
  · intro hh hd
    have hbase := rustRem_nonneg h 360 h360 hh
    have hsumnn : 0 ≤ rustRem h 360 + d + 360 := by linarith [hbase.1]
    have hinner := rustRem_nonneg (rustRem h 360 + d + 360) 360 h360 hsumnn
    show 0 ≤ rustRem (rustRem (rustRem h 360 + d + 360) 360) 360 ∧
      rustRem (rustRem (rustRem h 360 + d + 360) 360) 360 < 360
    rw [rustRem_id_of_abs_lt _ 360 h360 (by linarith [hinner.1]) hinner.2]
    exact hinner
  · exact hid
  · exact ⟨(clampQ01_bounds _).1, (clampQ01_bounds _).2⟩
  · exact hid
  · exact ⟨(clampQ01_bounds _).1, (clampQ01_bounds _).2⟩
  · exact hid
  · exact ⟨(clampQ01_bounds _).1, (clampQ01_bounds _).2⟩

/-- Claim C3 witness: a nonnegative hue stays in range after normalization. -/
theorem hsl_factory_ranges_witness : 0 ≤ (Hsl.new 30 2 (-1)).h :=
  (hsl_factory_ranges 30 2 (-1) 0 0).2.2.1 (by norm_num)

theorem hexDigit_facts : ∀ d : ℕ, d < 16 →
    hexVal (hexDigit d) = some d ∧ wsChar (hexDigit d) = false ∧
    hexDigit d ≠ '#' ∧ hexDigit d ≠ '+' ∧
    ((hexDigit d).isDigit = true ∨ ('A' ≤ hexDigit d ∧ hexDigit d ≤ 'F')) := by
  decide

theorem fromStrRadix16_pair (n : ℕ) (hn : n ≤ 255) :
    fromStrRadix16 [hexDigit (n / 16), hexDigit (n % 16)] = some n := by
  have hdiv : n / 16 < 16 := by omega
  have hmod : n % 16 < 16 := Nat.mod_lt _ (by norm_num)
  have h1 := hexDigit_facts (n / 16) hdiv
  have h2 := hexDigit_facts (n % 16) hmod
  have hne : ¬ (([hexDigit (n / 16), hexDigit (n % 16)] : List Char).head? = some '+') := by
    simp [h1.2.2.2.1]
  unfold fromStrRadix16 stripPlus
  rw [if_neg hne]
  show (match hexFoldAux 0 [hexDigit (n / 16), hexDigit (n % 16)] with
    | none => none
    | some v => if v ≤ 255 then some v else none) = some n
  simp only [hexFoldAux, h1.1, h2.1]
  have hval : 16 * (16 * 0 + n / 16) + n % 16 = n := by omega
  rw [hval, if_pos hn]

/-- Claim C7: for any color with alpha 255 (channels in byte range), parsing
the hex string produced by `rgba_to_hex` succeeds and recovers the color
exactly; the emitted string is `#` followed by uppercase hex digits only. -/
theorem hex_round_trip (c : Rgba) (hr : c.r ≤ 255) (hg : c.g ≤ 255) (hb : c.b ≤ 255)
    (ha : c.a = 255) :
    parse_hex_rgba (rgba_to_hex c) = some c ∧
    ∀ ch ∈ rgba_to_hex c, ch = '#' ∨ ch.isDigit = true ∨ ('A' ≤ ch ∧ ch ≤ 'F') := by
  obtain ⟨r, g, b, a⟩ := c
  simp only at hr hg hb ha
  subst ha
  have hrd := hexDigit_facts (r / 16) (by omega)
  have hrm := hexDigit_facts (r % 16) (Nat.mod_lt _ (by norm_num))
  have hgd := hexDigit_facts (g / 16) (by omega)
  have hgm := hexDigit_facts (g % 16) (Nat.mod_lt _ (by norm_num))
  have hbd := hexDigit_facts (b / 16) (by omega)
  have hbm := hexDigit_facts (b % 16) (Nat.mod_lt _ (by norm_num))
  have hlist : rgba_to_hex ⟨r, g, b, 255⟩ =
      ['#', hexDigit (r / 16), hexDigit (r % 16), hexDigit (g / 16), hexDigit (g % 16),
       hexDigit (b / 16), hexDigit (b % 16)] := by
    simp [rgba_to_hex, hexByte]
  have hwsh : wsChar '#' = false := by decide
  have htrim : trimChars (rgba_to_hex ⟨r, g, b, 255⟩) = rgba_to_hex ⟨r, g, b, 255⟩ := by
    rw [hlist]
    unfold trimChars
    simp [List.dropWhile, hwsh, hrd.2.1, hrm.2.1, hgd.2.1, hgm.2.1, hbd.2.1, hbm.2.1]
  constructor
  · unfold parse_hex_rgba
    rw [htrim, hlist]
    unfold stripHash
    rw [if_pos (by simp)]
    show parseHexCore [hexDigit (r / 16), hexDigit (r % 16), hexDigit (g / 16),
      hexDigit (g % 16), hexDigit (b / 16), hexDigit (b % 16)] = some ⟨r, g, b, 255⟩
    unfold parseHexCore
    simp only [fromStrRadix16_pair r hr, fromStrRadix16_pair g hg, fromStrRadix16_pair b hb]
  · intro ch hch
    rw [hlist] at hch
    simp only [List.mem_cons, List.not_mem_nil, or_false] at hch
    rcases hch with h | h | h | h | h | h | h
    · exact Or.inl h
    · exact Or.inr (h ▸ hrd.2.2.2.2)
    · exact Or.inr (h ▸ hrm.2.2.2.2)
    · exact Or.inr (h ▸ hgd.2.2.2.2)
    · exact Or.inr (h ▸ hgm.2.2.2.2)
    · exact Or.inr (h ▸ hbd.2.2.2.2)
    · exact Or.inr (h ▸ hbm.2.2.2.2)

/-- Claim C7 witness: a concrete round trip. -/
theorem hex_round_trip_witness :
    parse_hex_rgba (rgba_to_hex ⟨255, 0, 17, 255⟩) = some ⟨255, 0, 17, 255⟩ :=
  (hex_round_trip ⟨255, 0, 17, 255⟩ (by decide) (by decide) (by decide) rfl).1

theorem roundRust_natCast (n : ℕ) : roundRust (n : ℚ) = n := by
  unfold roundRust
  rw [if_pos (by positivity)]
  rw [Int.floor_eq_iff]
  push_cast
  constructor <;> linarith

theorem blend_channel_zero (s d : ℕ) (hd : d ≤ 255) : blend_channel s d 0 = d := by
  unfold blend_channel
  rw [show (s : ℚ) * 0 + (d : ℚ) * (1 - 0) = (d : ℚ) by ring]
  rw [roundRust_natCast]
  rw [max_eq_left (by positivity), min_eq_left (by exact_mod_cast hd)]
  exact Int.toNat_natCast d

theorem blend_channel_one (s d : ℕ) (hs : s ≤ 255) : blend_channel s d 1 = s := by
  unfold blend_channel
  rw [show (s : ℚ) * 1 + (d : ℚ) * (1 - 1) = (s : ℚ) by ring]
  rw [roundRust_natCast]
  rw [max_eq_left (by positivity), min_eq_left (by exact_mod_cast hs)]
  exact Int.toNat_natCast s

theorem get_put_same (c : Canvas) (x y : ℕ) (v : Rgba)
    (hidx : y * c.width + x < c.data.length) :
    get_pixel (put_pixel c x y v) x y = v := by
  unfold get_pixel put_pixel
  simp only [List.getD_eq_getElem?_getD]
  rw [List.getElem?_set_self (by simpa using hidx)]
  rfl

theorem get_pixel_mem (c : Canvas) (x y : ℕ) (hidx : y * c.width + x < c.data.length) :
    get_pixel c x y ∈ c.data := by
  unfold get_pixel
  simp only [List.getD_eq_getElem?_getD]
  rw [List.getElem?_eq_getElem hidx]
  exact List.getElem_mem hidx

/-- Claim C2: `blend_pixel` with source alpha 0 keeps the destination RGB and
forces alpha 255; with source alpha 255 it writes the source RGB with alpha
255; for every source alpha the written alpha is 255; out-of-bounds
coordinates leave the canvas entirely unchanged (the function is total — no
error is signalled). -/
theorem blend_pixel_spec (c : Canvas) (x y : ℤ) (src : Rgba)
    (hlen : c.data.length = c.width * c.height)
    (hpx : ∀ p ∈ c.data, p.r ≤ 255 ∧ p.g ≤ 255 ∧ p.b ≤ 255)
    (hsr : src.r ≤ 255) (hsg : src.g ≤ 255) (hsb : src.b ≤ 255) :
    ((0 ≤ x ∧ 0 ≤ y ∧ x.toNat < c.width ∧ y.toNat < c.height) →
      ((src.a = 0 → get_pixel (blend_pixel c x y src) x.toNat y.toNat =
          ⟨(get_pixel c x.toNat y.toNat).r, (get_pixel c x.toNat y.toNat).g,
           (get_pixel c x.toNat y.toNat).b, 255⟩) ∧
       (src.a = 255 → get_pixel (blend_pixel c x y src) x.toNat y.toNat =
          ⟨src.r, src.g, src.b, 255⟩) ∧
       (get_pixel (blend_pixel c x y src) x.toNat y.toNat).a = 255)) ∧
    ((x < 0 ∨ y < 0 ∨ c.width ≤ x.toNat ∨ c.height ≤ y.toNat) →
      blend_pixel c x y src = c) := by
  constructor
  · rintro ⟨hx0, hy0, hxw, hyh⟩
    have hneg : ¬ (x < 0 ∨ y < 0) := by
      rintro (h | h) <;> omega
    have hoob : ¬ (c.width ≤ x.toNat ∨ c.height ≤ y.toNat) := by
      rintro (h | h) <;> omega
    have hblend : blend_pixel c x y src =
        put_pixel c x.toNat y.toNat
          ⟨blend_channel src.r (get_pixel c x.toNat y.toNat).r ((src.a : ℚ) / 255),
           blend_channel src.g (get_pixel c x.toNat y.toNat).g ((src.a : ℚ) / 255),
           blend_channel src.b (get_pixel c x.toNat y.toNat).b ((src.a : ℚ) / 255),
           255⟩ := by
      unfold blend_pixel
      rw [if_neg hneg, if_neg hoob]
    have hidx : y.toNat * c.width + x.toNat < c.data.length := by
      rw [hlen]
      calc y.toNat * c.width + x.toNat < y.toNat * c.width + c.width := by omega
        _ = (y.toNat + 1) * c.width := by ring
        _ ≤ c.height * c.width := Nat.mul_le_mul_right _ hyh
        _ = c.width * c.height := Nat.mul_comm _ _
    have hidx' : y.toNat * (put_pixel c x.toNat y.toNat
        ⟨blend_channel src.r (get_pixel c x.toNat y.toNat).r ((src.a : ℚ) / 255),
         blend_channel src.g (get_pixel c x.toNat y.toNat).g ((src.a : ℚ) / 255),
         blend_channel src.b (get_pixel c x.toNat y.toNat).b ((src.a : ℚ) / 255),
         255⟩).width + x.toNat <
        (put_pixel c x.toNat y.toNat
        ⟨blend_channel src.r (get_pixel c x.toNat y.toNat).r ((src.a : ℚ) / 255),
         blend_channel src.g (get_pixel c x.toNat y.toNat).g ((src.a : ℚ) / 255),
         blend_channel src.b (get_pixel c x.toNat y.toNat).b ((src.a : ℚ) / 255),
         255⟩).data.length := by
      simpa [put_pixel] using hidx
    have hget : get_pixel (blend_pixel c x y src) x.toNat y.toNat =
        ⟨blend_channel src.r (get_pixel c x.toNat y.toNat).r ((src.a : ℚ) / 255),
         blend_channel src.g (get_pixel c x.toNat y.toNat).g ((src.a : ℚ) / 255),
         blend_channel src.b (get_pixel c x.toNat y.toNat).b ((src.a : ℚ) / 255),
         255⟩ := by
      rw [hblend]
      exact get_put_same _ _ _ _ (by simpa [put_pixel] using hidx)
    have hdst := hpx (get_pixel c x.toNat y.toNat) (get_pixel_mem c x.toNat y.toNat hidx)
    refine ⟨?_, ?_, ?_⟩
    · intro ha0
      rw [hget, ha0]
      have hα : ((0 : ℕ) : ℚ) / 255 = 0 := by norm_num
      rw [hα, blend_channel_zero _ _ hdst.1, blend_channel_zero _ _ hdst.2.1,
        blend_channel_zero _ _ hdst.2.2]
    · intro ha255
      rw [hget, ha255]
      have hα : ((255 : ℕ) : ℚ) / 255 = 1 := by norm_num
      rw [hα, blend_channel_one _ _ hsr, blend_channel_one _ _ hsg,
        blend_channel_one _ _ hsb]
    · rw [hget]
  · intro hoob
    by_cases hneg : x < 0 ∨ y < 0
    · unfold blend_pixel
      rw [if_pos hneg]
    · have h2 : c.width ≤ x.toNat ∨ c.height ≤ y.toNat := by
        rcases hoob with h | h | h | h
        · exact absurd (Or.inl h) hneg
        · exact absurd (Or.inr h) hneg
        · exact Or.inl h
        · exact Or.inr h
      unfold blend_pixel
      rw [if_neg hneg, if_pos h2]

/-- Claim C2 witness: blending a fully opaque source writes it verbatim. -/
theorem blend_pixel_spec_witness :
    get_pixel (blend_pixel canvasOne 0 0 ⟨1, 2, 3, 255⟩) (0 : ℤ).toNat (0 : ℤ).toNat =
      ⟨1, 2, 3, 255⟩ :=
  ((blend_pixel_spec canvasOne 0 0 ⟨1, 2, 3, 255⟩ (by decide) (by decide) (by decide)
      (by decide) (by decide)).1 ⟨by decide, by decide, by decide, by decide⟩).2.1 rfl

theorem crop_imm_dims (img : Img) (tw th cx cy : ℕ) (hx : cx + tw ≤ img.width)
    (hy : cy + th ≤ img.height) :
    (crop_imm img cx cy tw th).width = tw ∧ (crop_imm img cx cy tw th).height = th := by
  unfold crop_imm
  constructor
  · show min tw (img.width - min cx img.width) = tw
    have h1 : cx ≤ img.width := le_trans (Nat.le_add_right _ _) hx
    rw [min_eq_left h1]
    exact min_eq_left (by omega)
  · show min th (img.height - min cy img.height) = th
    have h1 : cy ≤ img.height := le_trans (Nat.le_add_right _ _) hy
    rw [min_eq_left h1]
    exact min_eq_left (by omega)

/-- Claim C8: for any source bitmap and nonzero targets, `resize_cover`
produces a bitmap of exactly the requested target dimensions, given only the
resampler's documented contract of returning the dimensions it is asked for. -/
theorem resize_cover_dims (resampleExact : Img → ℕ → ℕ → Img) (src : Img) (tw th : ℕ)
    (hres : ∀ s w h, (resampleExact s w h).width = w ∧ (resampleExact s w h).height = h)
    (_hsw : src.width ≠ 0) (_hsh : src.height ≠ 0) (_htw : tw ≠ 0) (_hth : th ≠ 0) :
    (resize_cover resampleExact src tw th).width = tw ∧
    (resize_cover resampleExact src tw th).height = th := by
  obtain ⟨hW, hH⟩ := hres src (cover_resized_w src tw th) (cover_resized_h src tw th)
  have hlw : tw ≤ cover_resized_w src tw th := Nat.le_max_right _ _
  have hlh : th ≤ cover_resized_h src tw th := Nat.le_max_right _ _
  have hdw : (cover_resized_w src tw th - tw) / 2 ≤ cover_resized_w src tw th - tw :=
    Nat.div_le_self _ _
  have hdh : (cover_resized_h src tw th - th) / 2 ≤ cover_resized_h src tw th - th :=
    Nat.div_le_self _ _
  unfold resize_cover
  exact crop_imm_dims _ tw th _ _ (by rw [hW]; omega) (by rw [hH]; omega)

theorem splitWsAux_sound (s : List Char) :
    ∀ (acc : List Char), (∀ c ∈ acc, wsChar c = false) →
      ∀ l ∈ splitWsAux s acc, l ≠ [] ∧ ∀ c ∈ l, wsChar c = false := by
  induction s with
  | nil =>
    intro acc hacc l hl
    unfold splitWsAux at hl
    by_cases h : acc = []
    · rw [if_pos h] at hl
      cases hl
    · rw [if_neg h] at hl
      simp only [List.mem_singleton] at hl
      subst hl
      refine ⟨by simpa using h, ?_⟩
      intro c hc
      exact hacc c (List.mem_reverse.mp hc)
  | cons c rest ih =>
    intro acc hacc l hl
    unfold splitWsAux at hl
    by_cases hws : wsChar c = true
    · rw [if_pos hws] at hl
      by_cases h : acc = []
      · rw [if_pos h] at hl
        exact ih [] (by simp) l hl
      · rw [if_neg h] at hl
        rcases List.mem_cons.mp hl with hrev | hrec
        · subst hrev
          refine ⟨by simpa using h, ?_⟩
          intro d hd
          exact hacc d (List.mem_reverse.mp hd)
        · exact ih [] (by simp) l hrec
    · rw [if_neg hws] at hl
      refine ih (c :: acc) ?_ l hl
      intro d hd
      rcases List.mem_cons.mp hd with rfl | hd'
      · exact Bool.not_eq_true _ ▸ (by simpa using hws)
      · exact hacc d hd'

theorem splitWs_sound (s : List Char) :
    ∀ l ∈ splitWs s, l ≠ [] ∧ ∀ c ∈ l, wsChar c = false :=
  splitWsAux_sound s [] (by simp)

theorem measure_single_space (adv : Char → ℚ) (kern : Char → Char → ℚ) :
    measure_text_width adv kern [' '] = adv ' ' := by
  show (0 : ℚ) + adv ' ' + 0 = adv ' '
  ring

theorem measureFrom_space_le (adv : Char → ℚ) (kern : Char → Char → ℚ)
    (h2 : ∀ c, kern ' ' c ≤ 0) (w : List Char) :
    measureFrom adv kern (some ' ') w ≤ measureFrom adv kern none w := by
  cases w with
  | nil => exact le_refl 0
  | cons c rest =>
    show kern ' ' c + adv c + measureFrom adv kern (some c) rest ≤
      0 + adv c + measureFrom adv kern (some c) rest
    have := h2 c
    linarith

theorem measureFrom_append_space (adv : Char → ℚ) (kern : Char → Char → ℚ)
    (h1 : ∀ c, kern c ' ' ≤ 0) (h2 : ∀ c, kern ' ' c ≤ 0) (A w : List Char) :
    ∀ p : Option Char,
      measureFrom adv kern p (A ++ ' ' :: w) ≤
        measureFrom adv kern p A + adv ' ' + measureFrom adv kern none w := by
  induction A with
  | nil =>
    intro p
    have hsp := measureFrom_space_le adv kern h2 w
    cases p with
    | none =>
      show (0 : ℚ) + adv ' ' + measureFrom adv kern (some ' ') w ≤
        0 + adv ' ' + measureFrom adv kern none w
      linarith
    | some q =>
      show kern q ' ' + adv ' ' + measureFrom adv kern (some ' ') w ≤
        0 + adv ' ' + measureFrom adv kern none w
      have := h1 q
      linarith
  | cons a A' ih =>
    intro p
    have hih := ih (some a)
    cases p with
    | none =>
      show (0 : ℚ) + adv a + measureFrom adv kern (some a) (A' ++ ' ' :: w) ≤
        ((0 : ℚ) + adv a + measureFrom adv kern (some a) A') + adv ' ' +
          measureFrom adv kern none w
      linarith
    | some q =>
      show kern q a + adv a + measureFrom adv kern (some a) (A' ++ ' ' :: w) ≤
        (kern q a + adv a + measureFrom adv kern (some a) A') + adv ' ' +
          measureFrom adv kern none w
      linarith

theorem measure_append_word (adv : Char → ℚ) (kern : Char → Char → ℚ)
    (h1 : ∀ c, kern c ' ' ≤ 0) (h2 : ∀ c, kern ' ' c ≤ 0) (A w : List Char) :
    measure_text_width adv kern (A ++ ' ' :: w) ≤
      measure_text_width adv kern A + adv ' ' + measure_text_width adv kern w :=
  measureFrom_append_space adv kern h1 h2 A w none

theorem wrapWords_sound (adv : Char → ℚ) (kern : Char → Char → ℚ) (maxW : ℚ)
    (h1 : ∀ c, kern c ' ' ≤ 0) (h2 : ∀ c, kern ' ' c ≤ 0)
    (W : List (List Char)) (hWne : ∀ u ∈ W, u ≠ []) :
    ∀ (words : List (List Char)), (∀ w ∈ words, w ∈ W) →
    ∀ (current : List Char) (cw : ℚ),
      ((current = [] ∧ cw = 0) ∨
       (current ≠ [] ∧ measure_text_width adv kern current ≤ cw ∧
        (cw ≤ maxW ∨ current ∈ W))) →
    ∀ (out : List (List Char)),
      (∀ l ∈ out, measure_text_width adv kern l ≤ maxW ∨ l ∈ W) →
    ∀ l ∈ wrapWords adv kern maxW words current cw out,
      measure_text_width adv kern l ≤ maxW ∨ l ∈ W := by
  intro words
  induction words with
  | nil =>
    intro _ current cw hinv out hout l hl
    unfold wrapWords at hl
    by_cases hc : current = []
    · rw [if_pos hc] at hl
      exact hout l hl
    · rw [if_neg hc] at hl
      rcases List.mem_append.mp hl with h | h
      · exact hout l h
      · simp only [List.mem_singleton] at h
        subst h
        rcases hinv with ⟨he, _⟩ | ⟨_, hm, hor⟩
        · exact absurd he hc
        · rcases hor with hle | hW
          · exact Or.inl (le_trans hm hle)
          · exact Or.inr hW
  | cons w rest ih =>
    intro hwords current cw hinv out hout l hl
    have hwW : w ∈ W := hwords w (by simp)
    have hwne : w ≠ [] := hWne w hwW
    have hrest : ∀ u ∈ rest, u ∈ W := fun u hu => hwords u (List.mem_cons_of_mem _ hu)
    unfold wrapWords at hl
    by_cases hguard : cw + (if current = [] then 0 else measure_text_width adv kern [' ']) +
        measure_text_width adv kern w ≤ maxW
    · rw [if_pos hguard] at hl
      refine ih hrest _ _ ?_ out hout l hl
      by_cases hc : current = []
      · rcases hinv with ⟨_, hcw⟩ | ⟨hne, _, _⟩
        · refine Or.inr ⟨by simp [hc, hwne], ?_, Or.inl ?_⟩
          · rw [if_pos hc, if_pos hc, hcw]
            simp
          · rw [if_pos hc] at hguard ⊢
            exact hguard
        · exact absurd hc hne
      · rcases hinv with ⟨he, _⟩ | ⟨_, hm, _⟩
        · exact absurd he hc
        · refine Or.inr ⟨by simp [hc], ?_, Or.inl ?_⟩
          · rw [if_neg hc, if_neg hc, measure_single_space]
            calc measure_text_width adv kern (current ++ ' ' :: w) ≤
                measure_text_width adv kern current + adv ' ' +
                  measure_text_width adv kern w :=
                measure_append_word adv kern h1 h2 current w
              _ ≤ cw + adv ' ' + measure_text_width adv kern w := by linarith
          · rw [if_neg hc] at hguard ⊢
            exact hguard
    · rw [if_neg hguard] at hl
      refine ih hrest w (measure_text_width adv kern w) ?_ _ ?_ l hl
      · exact Or.inr ⟨hwne, le_refl _, Or.inr hwW⟩
      · intro u hu
        by_cases hc : current = []
        · rw [if_pos hc] at hu
          exact hout u hu
        · rw [if_neg hc] at hu
          rcases List.mem_append.mp hu with h | h
          · exact hout u h
          · simp only [List.mem_singleton] at h
            subst h
            rcases hinv with ⟨he, _⟩ | ⟨_, hm, hor⟩
            · exact absurd he hc
            · rcases hor with hle | hW
              · exact Or.inl (le_trans hm hle)
              · exact Or.inr hW

theorem wrapAll_sound (adv : Char → ℚ) (kern : Char → Char → ℚ) (maxW : ℚ)
    (h1 : ∀ c, kern c ' ' ≤ 0) (h2 : ∀ c, kern ' ' c ≤ 0)
    (hls0 : List (List Char)) :
    ∀ (hls : List (List Char)), (∀ hl ∈ hls, hl ∈ hls0) →
    ∀ (acc : List (List Char)),
      (∀ l ∈ acc, measure_text_width adv kern l ≤ maxW ∨ ∃ hl ∈ hls0, l ∈ splitWs hl) →
    ∀ l ∈ hls.foldl
        (fun acc hard_line =>
          if measure_text_width adv kern hard_line ≤ maxW then acc ++ [hard_line]
          else acc ++ wrapWords adv kern maxW (splitWs hard_line) [] 0 []) acc,
      measure_text_width adv kern l ≤ maxW ∨ ∃ hl ∈ hls0, l ∈ splitWs hl := by
  intro hls
  induction hls with
  | nil =>
    intro _ acc hacc l hl
    exact hacc l hl
  | cons hl0 rest ih =>
    intro hmem acc hacc l hl
    have hhl0 : hl0 ∈ hls0 := hmem hl0 (by simp)
    have hrest : ∀ u ∈ rest, u ∈ hls0 := fun u hu => hmem u (List.mem_cons_of_mem _ hu)
    rw [List.foldl_cons] at hl
    refine ih hrest _ ?_ l hl
    intro u hu
    by_cases hfit : measure_text_width adv kern hl0 ≤ maxW
    · rw [if_pos hfit] at hu
      rcases List.mem_append.mp hu with h | h
      · exact hacc u h
      · simp only [List.mem_singleton] at h
        subst h
        exact Or.inl hfit
    · rw [if_neg hfit] at hu
      rcases List.mem_append.mp hu with h | h
      · exact hacc u h
      · have := wrapWords_sound adv kern maxW h1 h2 (splitWs hl0)
          (fun v hv => (splitWs_sound hl0 v hv).1)
          (splitWs hl0) (fun v hv => hv) [] 0 (Or.inl ⟨rfl, rfl⟩) [] (by simp) u h
        rcases this with hle | hW
        · exact Or.inl hle
        · exact Or.inr ⟨hl0, hhl0, hW⟩

/-- Claim C4 (amended): with metrics in which kerning against the space
character is nonpositive (the greedy accumulator tracks widths without
cross-word-boundary kerning), every line produced by `wrap_text_by_width`
either measures at most the (positive) max width, or is a single
whitespace-free word of the input placed alone on its line (never split);
and empty input yields exactly one empty line. -/
theorem wrap_text_soundness (adv : Char → ℚ) (kern : Char → Char → ℚ) (text : List Char)
    (maxW : ℚ) (hmax : 0 < maxW)
    (h1 : ∀ c, kern c ' ' ≤ 0) (h2 : ∀ c, kern ' ' c ≤ 0) :
    (∀ line ∈ wrap_text_by_width adv kern text maxW,
      measure_text_width adv kern line ≤ maxW ∨
      (line ≠ [] ∧ (∀ c ∈ line, wsChar c = false) ∧
        ∃ hl ∈ rustLines text, line ∈ splitWs hl)) ∧
    wrap_text_by_width adv kern [] maxW = [[]] := by
  constructor
  · intro line hline
    unfold wrap_text_by_width at hline
    by_cases hempty : wrapAll adv kern maxW (rustLines text) = []
    · rw [if_pos hempty] at hline
      simp only [List.mem_singleton] at hline
      subst hline
      exact Or.inl (le_of_lt hmax)
    · rw [if_neg hempty] at hline
      have := wrapAll_sound adv kern maxW h1 h2 (rustLines text) (rustLines text)
        (fun u hu => hu) [] (by simp) line hline
      rcases this with hle | ⟨hl, hhl, hmem⟩
      · exact Or.inl hle
      · obtain ⟨hne, hwsfree⟩ := splitWs_sound hl line hmem
        exact Or.inr ⟨hne, hwsfree, hl, hhl, hmem⟩
  · rfl

/-- Claim C4 witness: wrapping the empty input gives one empty line. -/
theorem wrap_text_soundness_witness : wrap_text_by_width advOne kernZero [] 5 = [[]] :=
  (wrap_text_soundness advOne kernZero [] 5 (by norm_num)
    (fun _ => le_refl 0) (fun _ => le_refl 0)).2

/-- Claim C4 counterexample: the greedy accumulator tracks the running width
without the kerning across word boundaries, so with a metric whose kerning
after a space is positive (advance 10, kerning 50 after `' '`), wrapping
`"a b c"` at max width 70 produces the single line `"a b c"` whose measured
width (advances plus pairwise kerning) is 150 > 70, and that line is not a
single word. -/
theorem wrap_text_kerning_cex :
    wrap_text_by_width advTen kernAfterSpace ("a b c".toList) 70 =
      [['a', ' ', 'b', ' ', 'c']] ∧
    70 < measure_text_width advTen kernAfterSpace ['a', ' ', 'b', ' ', 'c'] ∧
    ' ' ∈ ['a', ' ', 'b', ' ', 'c'] := by
  have htext : "a b c".toList = ['a', ' ', 'b', ' ', 'c'] := by decide
  have hm : measure_text_width advTen kernAfterSpace ['a', ' ', 'b', ' ', 'c'] = 150 := by
    show (0 : ℚ) + advTen 'a' +
      (kernAfterSpace 'a' ' ' + advTen ' ' +
        (kernAfterSpace ' ' 'b' + advTen 'b' +
          (kernAfterSpace 'b' ' ' + advTen ' ' +
            (kernAfterSpace ' ' 'c' + advTen 'c' + 0)))) = 150
    simp +decide [advTen, kernAfterSpace]
    norm_num
  have hma : measure_text_width advTen kernAfterSpace ['a'] = 10 := by
    show (0 : ℚ) + advTen 'a' + 0 = 10
    norm_num [advTen]
  have hmb : measure_text_width advTen kernAfterSpace ['b'] = 10 := by
    show (0 : ℚ) + advTen 'b' + 0 = 10
    norm_num [advTen]
  have hmc : measure_text_width advTen kernAfterSpace ['c'] = 10 := by
    show (0 : ℚ) + advTen 'c' + 0 = 10
    norm_num [advTen]
  have hms : measure_text_width advTen kernAfterSpace [' '] = 10 := by
    show (0 : ℚ) + advTen ' ' + 0 = 10
    norm_num [advTen]
  have hlines : rustLines ['a', ' ', 'b', ' ', 'c'] = [['a', ' ', 'b', ' ', 'c']] := by
    decide
  have hsplit : splitWs ['a', ' ', 'b', ' ', 'c'] = [['a'], ['b'], ['c']] := by decide
  have hwrap : wrapAll advTen kernAfterSpace 70 [['a', ' ', 'b', ' ', 'c']] =
      [['a', ' ', 'b', ' ', 'c']] := by
    unfold wrapAll
    rw [List.foldl_cons, List.foldl_nil, if_neg (by rw [hm]; norm_num), hsplit]
    unfold wrapWords
    norm_num [hma, hmb, hmc, hms]
    unfold wrapWords
    norm_num [hmb, hmc, hms]
    unfold wrapWords
    norm_num [hmc, hms]
    simp +decide
    norm_num
    unfold wrapWords
    simp +decide
  refine ⟨?_, ?_, by decide⟩
  · unfold wrap_text_by_width
    rw [htext, hlines, hwrap]
    rw [if_neg (by simp)]
  · rw [hm]
    norm_num

theorem lerp_channel_same (a : ℕ) (ha : a ≤ 255) (t : ℚ) : lerp_channel a a t = a := by
  unfold lerp_channel
  rw [show (a : ℚ) + ((a : ℚ) - (a : ℚ)) * t = (a : ℚ) by ring, roundRust_natCast]
  rw [max_eq_left (by positivity), min_eq_left (by exact_mod_cast ha)]
  exact Int.toNat_natCast a

theorem getD_mem_of_lt {α : Type} (l : List α) (i : ℕ) (d : α) (h : i < l.length) :
    l.getD i d ∈ l := by
  rw [List.getD_eq_getElem?_getD, List.getElem?_eq_getElem h]
  exact List.getElem_mem h

theorem parsePalette_mem : ∀ (ss : List (List Char)) (cs : List Rgba),
    parsePalette ss = some cs → ∀ c ∈ cs, ∃ s ∈ ss, parse_hex_rgba s = some c := by
  intro ss
  induction ss with
  | nil =>
    intro cs h c hc
    unfold parsePalette at h
    injection h with h'
    subst h'
    cases hc
  | cons s rest ih =>
    intro cs h c hc
    unfold parsePalette at h
    cases hp : parse_hex_rgba s with
    | none => rw [hp] at h; cases h
    | some c0 =>
      rw [hp] at h
      cases hr : parsePalette rest with
      | none => rw [hr] at h; cases h
      | some cs' =>
        rw [hr] at h
        injection h with h'
        subst h'
        rcases List.mem_cons.mp hc with rfl | hc'
        · exact ⟨s, by simp, hp⟩
        · obtain ⟨s', hs', hps'⟩ := ih cs' hr c hc'
          exact ⟨s', List.mem_cons_of_mem _ hs', hps'⟩

theorem mesh_pixel_alpha (c0 c1 c2 c3 : Rgba) (h0 : c0.a = 255) (h1 : c1.a = 255)
    (h2 : c2.a = 255) (h3 : c3.a = 255) (seed width height x y : ℕ) :
    (mesh_pixel c0 c1 c2 c3 seed width height x y).a = 255 := by
  simp only [mesh_pixel, lerp_color]
  simp only [h0, h1, h2, h3, lerp_channel_same 255 (by norm_num)]

theorem stripes_pixel_alpha (c0 c1 c2 : Rgba) (h0 : c0.a = 255) (h1 : c1.a = 255)
    (h2 : c2.a = 255) (stripe_size drift seed width height x y : ℕ) :
    (stripes_pixel c0 c1 c2 stripe_size drift seed width height x y).a = 255 := by
  simp only [stripes_pixel, lerp_color]
  by_cases hline : ((x + y + drift) / stripe_size) % 2 = 0
  · simp [hline, h0, h1, h2, lerp_channel_same 255 (by norm_num)]
  · simp [hline, h0, h1, h2, lerp_channel_same 255 (by norm_num)]

/-- Claim C1 (amended): when every successfully parsed palette color is fully
opaque (always the case for 6-digit `#RRGGBB` colors; 8-digit `#RRGGBBAA`
colors can carry a lower alpha), every pixel of any background rendered by
`render_background` (Mesh or Stripes, any nonzero canvas, any palette of at
least 2 parsed colors, any seed) has alpha 255: the per-channel loops touch
only the RGB channels and the alpha channel is interpolated from the chosen
palette colors. -/
theorem render_background_opaque (cfg : BackgroundConfig) (w h : ℕ)
    (img : List (List Rgba))
    (hok : render_background cfg w h = .ok img)
    (ha : ∀ s ∈ cfg.colors, ∀ c, parse_hex_rgba s = some c → c.a = 255) :
    ∀ row ∈ img, ∀ p ∈ row, p.a = 255 := by
  obtain ⟨tpl, seed, colors, ac, strat⟩ := cfg
  simp only at ha
  unfold render_background at hok
  simp only at hok
  by_cases hwh : w = 0 ∨ h = 0
  · rw [if_pos hwh] at hok; cases hok
  · rw [if_neg hwh] at hok
    cases hpal : parsePalette colors with
    | none =>
      rw [hpal] at hok
      dsimp only at hok
      cases hok
    | some palette =>
      rw [hpal] at hok
      dsimp only at hok
      by_cases hlen : palette.length < 2
      · rw [if_pos hlen] at hok; cases hok
      · rw [if_neg hlen] at hok
        injection hok with him
        have hpal255 : ∀ c ∈ palette, c.a = 255 := by
          intro c hc
          obtain ⟨s, hs, hps⟩ := parsePalette_mem colors palette hpal c hc
          exact ha s hs c hps
        have hcorner : ∀ raw : ℕ,
            (palette.getD (gen_range 0 palette.length raw) ⟨0, 0, 0, 0⟩).a = 255 := by
          intro raw
          apply hpal255
          apply getD_mem_of_lt
          unfold gen_range
          rw [Nat.zero_add, Nat.sub_zero]
          exact Nat.mod_lt raw (by omega)
        cases tpl with
        | mesh =>
          dsimp only at him
          intro row hrow p hp
          rw [← him] at hrow
          simp only [render_mesh] at hrow
          obtain ⟨y, hy, rfl⟩ := List.mem_map.mp hrow
          obtain ⟨x, hx, rfl⟩ := List.mem_map.mp hp
          exact mesh_pixel_alpha _ _ _ _ (hcorner _) (hcorner _) (hcorner _) (hcorner _)
            seed w h x y
        | stripes =>
          dsimp only at him
          intro row hrow p hp
          rw [← him] at hrow
          simp only [render_stripes] at hrow
          obtain ⟨y, hy, rfl⟩ := List.mem_map.mp hrow
          obtain ⟨x, hx, rfl⟩ := List.mem_map.mp hp
          exact stripes_pixel_alpha _ _ _ (hcorner _) (hcorner _) (hcorner _) _ _ seed w h x y

theorem pseudo_noise_zero : pseudo_noise 0 0 0 = -1 := by
  unfold pseudo_noise wrap64
  norm_num

theorem clampToByte_neg_ten : clampToByte (-10 : ℚ) = 0 := by
  unfold clampToByte clampQ
  rw [max_eq_right (by norm_num), min_eq_left (by norm_num)]
  simp

/-- Claim C1 counterexample: a palette of two successfully parsed
8-digit colors `#00000000` (alpha 0) renders a mesh background whose pixel has
alpha 0, not 255. -/
theorem render_background_alpha_cex :
    render_background cfgAlphaZero 1 1 = .ok [[⟨0, 0, 0, 0⟩]] ∧
    ((⟨0, 0, 0, 0⟩ : Rgba).a ≠ 255) := by
  refine ⟨?_, by decide⟩
  have hpal : parsePalette [("#00000000".toList), ("#00000000".toList)] =
      some [⟨0, 0, 0, 0⟩, ⟨0, 0, 0, 0⟩] := by decide
  have hpix : mesh_pixel ⟨0, 0, 0, 0⟩ ⟨0, 0, 0, 0⟩ ⟨0, 0, 0, 0⟩ ⟨0, 0, 0, 0⟩ 0 1 1 0 0 =
      ⟨0, 0, 0, 0⟩ := by
    simp only [mesh_pixel, lerp_color]
    simp only [lerp_channel_same 0 (by norm_num)]
    simp only [Nat.cast_zero, zero_mul, zero_add, pseudo_noise_zero]
    norm_num [clampToByte_neg_ten]
  have hget : ∀ raw : ℕ,
      ([⟨0, 0, 0, 0⟩, ⟨0, 0, 0, 0⟩] : List Rgba).getD
        (gen_range 0 ([⟨0, 0, 0, 0⟩, ⟨0, 0, 0, 0⟩] : List Rgba).length raw)
        ⟨0, 0, 0, 0⟩ = ⟨0, 0, 0, 0⟩ := by
    intro raw
    have h2 : gen_range 0 ([⟨0, 0, 0, 0⟩, ⟨0, 0, 0, 0⟩] : List Rgba).length raw < 2 := by
      unfold gen_range
      simp
      omega
    have h3 : gen_range 0 ([⟨0, 0, 0, 0⟩, ⟨0, 0, 0, 0⟩] : List Rgba).length raw = 0 ∨
        gen_range 0 ([⟨0, 0, 0, 0⟩, ⟨0, 0, 0, 0⟩] : List Rgba).length raw = 1 := by
      omega
    rcases h3 with h | h <;> rw [h] <;> rfl
  unfold render_background cfgAlphaZero
  dsimp only
  rw [hpal]
  dsimp only
  rw [if_neg (by decide)]
  simp only [render_mesh]
  simp only [hget]
  simp only [List.range_succ, List.range_zero, List.nil_append, List.map_cons, List.map_nil]
  rw [hpix, if_neg (by decide)]

/-- The fully evaluated 1×1 mesh render of the opaque all-black palette. -/
theorem render_cfgOpaque_value : render_background cfgOpaque 1 1 = .ok [[⟨0, 0, 0, 255⟩]] := by
  have hpal : parsePalette [("#000000".toList), ("#000000".toList)] =
      some [⟨0, 0, 0, 255⟩, ⟨0, 0, 0, 255⟩] := by decide
  have hpix : mesh_pixel ⟨0, 0, 0, 255⟩ ⟨0, 0, 0, 255⟩ ⟨0, 0, 0, 255⟩ ⟨0, 0, 0, 255⟩ 0 1 1 0 0 =
      ⟨0, 0, 0, 255⟩ := by
    simp only [mesh_pixel, lerp_color]
    simp only [lerp_channel_same 0 (by norm_num), lerp_channel_same 255 (by norm_num)]
    simp only [Nat.cast_zero, zero_mul, zero_add, pseudo_noise_zero]
    norm_num [clampToByte_neg_ten]
  have hget : ∀ raw : ℕ,
      ([⟨0, 0, 0, 255⟩, ⟨0, 0, 0, 255⟩] : List Rgba).getD
        (gen_range 0 ([⟨0, 0, 0, 255⟩, ⟨0, 0, 0, 255⟩] : List Rgba).length raw)
        ⟨0, 0, 0, 0⟩ = ⟨0, 0, 0, 255⟩ := by
    intro raw
    have h2 : gen_range 0 ([⟨0, 0, 0, 255⟩, ⟨0, 0, 0, 255⟩] : List Rgba).length raw < 2 := by
      unfold gen_range
      simp
      omega
    have h3 : gen_range 0 ([⟨0, 0, 0, 255⟩, ⟨0, 0, 0, 255⟩] : List Rgba).length raw = 0 ∨
        gen_range 0 ([⟨0, 0, 0, 255⟩, ⟨0, 0, 0, 255⟩] : List Rgba).length raw = 1 := by
      omega
    rcases h3 with h | h <;> rw [h] <;> rfl
  unfold render_background cfgOpaque
  dsimp only
  rw [hpal]
  dsimp only
  rw [if_neg (by decide)]
  simp only [render_mesh]
  simp only [hget]
  simp only [List.range_succ, List.range_zero, List.nil_append, List.map_cons, List.map_nil]
  rw [hpix, if_neg (by decide)]

/-- Claim C1 witness: the concrete 1×1 opaque-palette mesh render has an
opaque pixel. -/
theorem render_background_opaque_witness :
    (((okOr (render_background cfgOpaque 1 1) []).headD []).headD ⟨0, 0, 0, 0⟩).a = 255 := by
  have ha : ∀ s ∈ cfgOpaque.colors, ∀ c, parse_hex_rgba s = some c → c.a = 255 := by
    intro s hs c hc
    simp only [cfgOpaque, List.mem_cons, List.not_mem_nil, or_false] at hs
    rcases hs with rfl | rfl <;>
    · rw [show parse_hex_rgba ("#000000".toList) = some ⟨0, 0, 0, 255⟩ from by decide] at hc
      injection hc with h'
      rw [← h']
  have h := render_background_opaque cfgOpaque 1 1 [[⟨0, 0, 0, 255⟩]]
    render_cfgOpaque_value ha [⟨0, 0, 0, 255⟩] (by simp) ⟨0, 0, 0, 255⟩ (by simp)
  rw [render_cfgOpaque_value]
  exact h

/-- Claim C8 witness: a 3×5 source covers a 2×7 target exactly. -/
theorem resize_cover_dims_witness :
    (resize_cover resampleId imgSmall 2 7).width = 2 ∧
    (resize_cover resampleId imgSmall 2 7).height = 7 :=
  resize_cover_dims resampleId imgSmall 2 7 (fun _ _ _ => ⟨rfl, rfl⟩)
    (by decide) (by decide) (by decide) (by decide)

/-- Claim C5 counterexample: the claim says a raw frame color different from the
global default constant is kept verbatim, but the lowercase variant
`"#11151b"` of the default `"#11151B"` differs from it and is nevertheless
replaced by the device profile's color. -/
theorem resolve_style_case_cex :
    phoneLowerColor.frame_color ≠ DEFAULT_FRAME_COLOR ∧
    (resolve_phone_style phoneLowerColor).frame_color ≠ phoneLowerColor.frame_color ∧
    (resolve_phone_style phoneLowerColor).frame_color =
      (profile_for PhoneModel.iphone16Pro).frame_color := by
  decide

/-- Claim C5 (amended): for a phone with a named device model, every
overridable field of the resolved style equals the device profile's value when
the raw field equals that field's global default (for the frame color:
ASCII case-insensitively), and equals the raw user value otherwise. -/
theorem resolve_style_overrides (phone : PhoneConfig) (m : PhoneModel)
    (hm : phone.model = some m) :
    (resolve_phone_style phone).corner_radius =
      (if phone.corner_radius = DEFAULT_CORNER_RADIUS then (profile_for m).corner_radius
       else phone.corner_radius) ∧
    (resolve_phone_style phone).screen_padding.top =
      (if phone.screen_padding.top = DEFAULT_INSETS.top then (profile_for m).screen_padding.top
       else phone.screen_padding.top) ∧
    (resolve_phone_style phone).screen_padding.right =
      (if phone.screen_padding.right = DEFAULT_INSETS.right then
         (profile_for m).screen_padding.right
       else phone.screen_padding.right) ∧
    (resolve_phone_style phone).screen_padding.bottom =
      (if phone.screen_padding.bottom = DEFAULT_INSETS.bottom then
         (profile_for m).screen_padding.bottom
       else phone.screen_padding.bottom) ∧
    (resolve_phone_style phone).screen_padding.left =
      (if phone.screen_padding.left = DEFAULT_INSETS.left then
         (profile_for m).screen_padding.left
       else phone.screen_padding.left) ∧
    (resolve_phone_style phone).frame_color =
      (if eqIgnoreAsciiCase phone.frame_color DEFAULT_FRAME_COLOR then
         (profile_for m).frame_color
       else phone.frame_color) ∧
    (resolve_phone_style phone).frame_border_width =
      (if phone.frame_border_width = DEFAULT_FRAME_BORDER_WIDTH then
         (profile_for m).frame_border_width
       else phone.frame_border_width) ∧
    (resolve_phone_style phone).shadow_offset_y =
      (if phone.shadow_offset_y = DEFAULT_SHADOW_OFFSET_Y then (profile_for m).shadow_offset_y
       else phone.shadow_offset_y) ∧
    (resolve_phone_style phone).shadow_alpha =
      (if phone.shadow_alpha = DEFAULT_SHADOW_ALPHA then (profile_for m).shadow_alpha
       else phone.shadow_alpha) := by
  simp [resolve_phone_style, hm, choose_u32, choose_i32, choose_u8, choose_insets, choose_color]

/-- Claim C5 witness: a concrete explicit (non-default) corner radius is kept. -/
theorem resolve_style_overrides_witness :
    (resolve_phone_style phoneExplicit).corner_radius =
      (if phoneExplicit.corner_radius = DEFAULT_CORNER_RADIUS then
         (profile_for PhoneModel.iphone17Pro).corner_radius
       else phoneExplicit.corner_radius) :=
  (resolve_style_overrides phoneExplicit PhoneModel.iphone17Pro rfl).1

/-- Claim C10: in style resolution, the frame-color field is compared to the
global default ASCII case-insensitively, while every other overridable field is
compared by exact equality (an exactly non-default value is always kept). -/
theorem choose_color_case_insensitive (phone : PhoneConfig) (m : PhoneModel)
    (hm : phone.model = some m) :
    (eqIgnoreAsciiCase phone.frame_color DEFAULT_FRAME_COLOR = true →
       (resolve_phone_style phone).frame_color = (profile_for m).frame_color) ∧
    (eqIgnoreAsciiCase phone.frame_color DEFAULT_FRAME_COLOR = false →
       (resolve_phone_style phone).frame_color = phone.frame_color) ∧
    (phone.corner_radius ≠ DEFAULT_CORNER_RADIUS →
       (resolve_phone_style phone).corner_radius = phone.corner_radius) ∧
    (phone.screen_padding.top ≠ DEFAULT_INSETS.top →
       (resolve_phone_style phone).screen_padding.top = phone.screen_padding.top) ∧
    (phone.screen_padding.right ≠ DEFAULT_INSETS.right →
       (resolve_phone_style phone).screen_padding.right = phone.screen_padding.right) ∧
    (phone.screen_padding.bottom ≠ DEFAULT_INSETS.bottom →
       (resolve_phone_style phone).screen_padding.bottom = phone.screen_padding.bottom) ∧
    (phone.screen_padding.left ≠ DEFAULT_INSETS.left →
       (resolve_phone_style phone).screen_padding.left = phone.screen_padding.left) ∧
    (phone.frame_border_width ≠ DEFAULT_FRAME_BORDER_WIDTH →
       (resolve_phone_style phone).frame_border_width = phone.frame_border_width) ∧
    (phone.shadow_offset_y ≠ DEFAULT_SHADOW_OFFSET_Y →
       (resolve_phone_style phone).shadow_offset_y = phone.shadow_offset_y) ∧
    (phone.shadow_alpha ≠ DEFAULT_SHADOW_ALPHA →
       (resolve_phone_style phone).shadow_alpha = phone.shadow_alpha) := by
  refine ⟨?_, ?_, ?_, ?_, ?_, ?_, ?_, ?_, ?_, ?_⟩ <;> intro h <;>
    simp [resolve_phone_style, hm, choose_u32, choose_i32, choose_u8, choose_insets,
      choose_color, h]

/-- Claim C10 witness: the lowercase default variant is replaced by the device
profile color. -/
theorem choose_color_case_insensitive_witness :
    (resolve_phone_style phoneLowerColor).frame_color =
      (profile_for PhoneModel.iphone16Pro).frame_color :=
  (choose_color_case_insensitive phoneLowerColor PhoneModel.iphone16Pro rfl).1 (by decide)

/-- Claim C6: background rendering is deterministic — it depends only on the
seed, the palette colors, the template, and the canvas size, so two calls with
identical values for those produce byte-identical bitmaps (other configuration
fields may differ). -/
theorem render_background_deterministic (c1 c2 : BackgroundConfig) (w1 w2 h1 h2 : ℕ)
    (hs : c1.seed = c2.seed) (hc : c1.colors = c2.colors) (ht : c1.template = c2.template)
    (hw : w1 = w2) (hh : h1 = h2) :
    render_background c1 w1 h1 = render_background c2 w2 h2 := by
  cases c1
  cases c2
  simp only at hs hc ht
  subst hs hc ht hw hh
  rfl

/-- Claim C6 witness: two configurations agreeing on seed, palette and template
but differing in the auto-palette fields render identically. -/
theorem render_background_deterministic_witness :
    render_background cfgOpaque 3 2 = render_background cfgOpaque' 3 2 :=
  render_background_deterministic cfgOpaque cfgOpaque' 3 3 2 2 rfl rfl rfl rfl rfl

/-- Claim C9 counterexample: with an overlay on a Pro Max model the code
subtracts an overlay-specific adjustment from the insets, so a scene whose
frame rect minus (inset + border width) on each side has zero width (insets
summing to the frame width) still composes successfully instead of failing
with `NoScreenSpace`. -/
theorem compose_no_screen_space_cex :
    compose_scene_geometry phoneTightInsets true = .ok ⟨15, 17, 12, 954⟩ ∧
    phoneTightInsets.width ≤
      (phoneTightInsets.screen_padding.left + phoneTightInsets.frame_border_width) +
        (phoneTightInsets.screen_padding.right + phoneTightInsets.frame_border_width) ∧
    (resolve_phone_style phoneTightInsets).screen_padding =
      phoneTightInsets.screen_padding ∧
    (resolve_phone_style phoneTightInsets).frame_border_width =
      phoneTightInsets.frame_border_width := by
  decide

/-- Claim C9 (amended): for a valid phone size (and a parseable frame color on
the programmatic-frame path), composition fails with `NoScreenSpace` exactly
when the frame rect minus the effective insets — `inset + border width` per
side, reduced by the overlay adjustment when an overlay is used — has zero
width or height; in particular, without an overlay, insets summing to at least
the frame width always cause this failure, and no screen rectangle is
produced. -/
theorem compose_no_screen_space_iff (phone : PhoneConfig) (op : Bool)
    (hw : phone.width ≠ 0) (hh : phone.height ≠ 0)
    (hwmax : phone.width ≤ u32Max)
    (hpl : (resolve_phone_style phone).screen_padding.left ≤ u32Max)
    (hpr : (resolve_phone_style phone).screen_padding.right ≤ u32Max)
    (hcol : op = false →
      (parse_hex_rgba (resolve_phone_style phone).frame_color).isSome = true) :
    (compose_scene_geometry phone op = .error ComposeErr.noScreenSpace ↔
      (phone.width ≤ satAdd (effectiveInsets phone op).left (effectiveInsets phone op).right ∨
       phone.height ≤ satAdd (effectiveInsets phone op).top (effectiveInsets phone op).bottom)) ∧
    (op = false →
      phone.width ≤ (resolve_phone_style phone).screen_padding.left +
        (resolve_phone_style phone).screen_padding.right →
      compose_scene_geometry phone op = .error ComposeErr.noScreenSpace) := by
  have h1 : ¬(phone.width = 0 ∨ phone.height = 0) := by
    rintro (h | h) <;> [exact hw h; exact hh h]
  have h2 : ¬(op = false ∧
      (parse_hex_rgba (resolve_phone_style phone).frame_color).isNone = true) := by
    rintro ⟨hop, hnone⟩
    have := hcol hop
    rw [Option.isSome_iff_ne_none] at this
    exact this (Option.isNone_iff_eq_none.mp hnone)
  have hgeom : compose_scene_geometry phone op =
      (if phone.width - satAdd (effectiveInsets phone op).left (effectiveInsets phone op).right
            = 0 ∨
          phone.height - satAdd (effectiveInsets phone op).top (effectiveInsets phone op).bottom
            = 0 then
        Except.error ComposeErr.noScreenSpace
       else
        Except.ok ⟨satAdd phone.x (effectiveInsets phone op).left,
          satAdd phone.y (effectiveInsets phone op).top,
          phone.width - satAdd (effectiveInsets phone op).left (effectiveInsets phone op).right,
          phone.height -
            satAdd (effectiveInsets phone op).top (effectiveInsets phone op).bottom⟩) := by
    simp only [compose_scene_geometry, if_neg h1, if_neg h2]
  constructor
  · rw [hgeom]
    by_cases hcond :
        phone.width - satAdd (effectiveInsets phone op).left (effectiveInsets phone op).right
          = 0 ∨
        phone.height - satAdd (effectiveInsets phone op).top (effectiveInsets phone op).bottom
          = 0
    · rw [if_pos hcond]
      simp only [true_iff, iff_true_intro rfl]
      rcases hcond with hc0 | hc0
      · exact Or.inl (Nat.sub_eq_zero_iff_le.mp hc0)
      · exact Or.inr (Nat.sub_eq_zero_iff_le.mp hc0)
    · rw [if_neg hcond]
      constructor
      · intro hcontra
        exact absurd hcontra (by simp)
      · intro hle
        exfalso
        apply hcond
        rcases hle with hle | hle
        · exact Or.inl (Nat.sub_eq_zero_iff_le.mpr hle)
        · exact Or.inr (Nat.sub_eq_zero_iff_le.mpr hle)
  · intro hop hsum
    rw [hgeom]
    have hadj : overlayInsetAdjust op phone.model = (0, 0) := by
      rw [hop]; rfl
    have hleft : (resolve_phone_style phone).screen_padding.left ≤
        (effectiveInsets phone op).left := by
      simp only [effectiveInsets, hadj, Nat.sub_zero, satAdd]
      exact le_min (Nat.le_add_right _ _) hpl
    have hright : (resolve_phone_style phone).screen_padding.right ≤
        (effectiveInsets phone op).right := by
      simp only [effectiveInsets, hadj, Nat.sub_zero, satAdd]
      exact le_min (Nat.le_add_right _ _) hpr
    have hwle : phone.width ≤
        satAdd (effectiveInsets phone op).left (effectiveInsets phone op).right := by
      refine le_min ?_ hwmax
      exact le_trans hsum (Nat.add_le_add hleft hright)
    rw [if_pos (Or.inl (Nat.sub_eq_zero_iff_le.mpr hwle))]

/-- Claim C9 witness: a feasible model-less phone does not fail, and the
failure condition is equivalent to the inset inequality. -/
theorem compose_no_screen_space_iff_witness :
    (compose_scene_geometry phonePlain false = .error ComposeErr.noScreenSpace ↔
      (phonePlain.width ≤
        satAdd (effectiveInsets phonePlain false).left (effectiveInsets phonePlain false).right ∨
       phonePlain.height ≤
        satAdd (effectiveInsets phonePlain false).top
          (effectiveInsets phonePlain false).bottom)) ∧
    (false = false →
      phonePlain.width ≤ (resolve_phone_style phonePlain).screen_padding.left +
        (resolve_phone_style phonePlain).screen_padding.right →
      compose_scene_geometry phonePlain false = .error ComposeErr.noScreenSpace) :=
  compose_no_screen_space_iff phonePlain false (by decide) (by decide) (by decide)
    (by decide) (by decide) (fun _ => by decide)

end Screenforge
